import Mathlib

/-!
Verification of the bounded lock-free ring queue, its producer and observer
drivers, and the memory pool of this repository, via a shallow sequential
embedding of the C++ sources (`queue.hpp`, `queue_producer.hpp`,
`queue_observer.hpp`, `memory_pool.hpp`).

Atomic slot pointers `std::atomic<T*>` become `Option T` valued slots of a
buffer `Fin Capacity → Option T` (`nullptr` is `none`); the two `size_t`
cursors become `Nat` fields; each member function becomes a pure function
from the queue state to a result paired with the successor state.  The
driver worker loops become explicit iteration functions indexed by the
iteration number.
-/

/-- State of `LockFreeRingQueue<T, Capacity>` from `queue.hpp`: the slot
array `buffer_` (a slot holds `none` for a `nullptr` slot), `read_index_`
and `write_index_`. -/
structure LockFreeRingQueue (T : Type) (Capacity : Nat) where
  buffer : Fin Capacity → Option T
  read_index : Nat
  write_index : Nat

/-- Reduce a `Nat` cursor value modulo the capacity to index the buffer,
as the C++ code does with `% Capacity`. -/
def ringIdx (C : Nat) [NeZero C] (n : Nat) : Fin C :=
  ⟨n % C, Nat.mod_lt _ (Nat.pos_of_ne_zero (NeZero.ne C))⟩

/-- Store a value into one slot of the buffer, modelling the atomic store
or successful CAS on `buffer_[i]`. -/
def setSlot {T : Type} {C : Nat} (f : Fin C → Option T) (i : Fin C) (v : Option T) :
    Fin C → Option T :=
  fun j => if j = i then v else f j

namespace LockFreeRingQueue

variable {T : Type} {C : Nat} [NeZero C]

/-- The freshly constructed queue: every slot `nullptr`, both cursors `0`. -/
def emptyQueue (T : Type) (C : Nat) : LockFreeRingQueue T C :=
  ⟨fun _ => none, 0, 0⟩

/-- `LockFreeRingQueue::push` from `queue.hpp` lines 301-351, with the
`new T(...)` allocation outcome made explicit as the `allocOk` argument
(the C++ `catch (...)` branch is `allocOk = false`).  Returns the `bool`
result of `push` paired with the successor queue state.  The CAS on
`buffer_[current_write]` expecting `nullptr` succeeds exactly when the slot
is empty; on CAS failure the freshly allocated node is deleted and the
state is unchanged. -/
def pushAlloc (q : LockFreeRingQueue T C) (value : T) (allocOk : Bool) :
    Bool × LockFreeRingQueue T C :=
  let current_write := q.write_index
  let next_write := (current_write + 1) % C
  if next_write = q.read_index then
    (false, q)
  else if allocOk = false then
    (false, q)
  else
    match q.buffer (ringIdx C current_write) with
    | none =>
        (true, ⟨setSlot q.buffer (ringIdx C current_write) (some value),
                q.read_index, next_write⟩)
    | some _ => (false, q)

/-- `push` in the ordinary case where the allocation of the element copy
succeeds. -/
def push (q : LockFreeRingQueue T C) (value : T) : Bool × LockFreeRingQueue T C :=
  pushAlloc q value true

/-- `LockFreeRingQueue::pop` from `queue.hpp` lines 357-391: empty check on
the cursors, exchange of the slot at `read_index_` for `nullptr`, raced-empty
check on the captured pointer, then cursor advance and return of the moved
payload. -/
def pop (q : LockFreeRingQueue T C) : Option T × LockFreeRingQueue T C :=
  let current_read := q.read_index
  if current_read = q.write_index then
    (none, q)
  else
    let data := q.buffer (ringIdx C current_read)
    let exchanged : LockFreeRingQueue T C :=
      ⟨setSlot q.buffer (ringIdx C current_read) none, q.read_index, q.write_index⟩
    match data with
    | none => (none, exchanged)
    | some v =>
        (some v, ⟨exchanged.buffer, (current_read + 1) % C, q.write_index⟩)

/-- `LockFreeRingQueue::read_at` from `queue.hpp` lines 399-420: bound check
on the offset, then a plain load and copy of the slot at
`(read_index_ + index) % Capacity`.  The member function performs no store,
so the returned successor state is the input state. -/
def read_at (q : LockFreeRingQueue T C) (index : Nat) :
    Option T × LockFreeRingQueue T C :=
  if C ≤ index then
    (none, q)
  else
    let target_index := (q.read_index + index) % C
    (q.buffer (ringIdx C target_index), q)

end LockFreeRingQueue

section SlotLemmas

variable {T : Type} {C : Nat}

theorem setSlot_self (f : Fin C → Option T) (i : Fin C) (v : Option T) :
    setSlot f i v i = v := by
  simp [setSlot]

theorem setSlot_other (f : Fin C → Option T) {i j : Fin C} (v : Option T)
    (h : j ≠ i) : setSlot f i v j = f j := by
  simp [setSlot, h]

theorem setSlot_none_of_none (f : Fin C → Option T) (i : Fin C)
    (h : f i = none) : setSlot f i none = f := by
  funext j
  by_cases hj : j = i
  · subst hj; simp [setSlot, h]
  · simp [setSlot, hj]

theorem ringIdx_mod (C : Nat) [NeZero C] (n : Nat) :
    ringIdx C (n % C) = ringIdx C n := by
  apply Fin.ext
  exact Nat.mod_mod_of_dvd n (dvd_refl C)

end SlotLemmas

/-- State held by the `LockFreeQueueProducer::produce` worker loop from
`queue_producer.hpp`: the shared queue, the `was_full` flag and the
`backoff` counter (initialised to `false` and `1`). -/
structure ProducerState (T : Type) (C : Nat) where
  q : LockFreeRingQueue T C
  wasFull : Bool
  backoff : Nat

/-- Observable events of one iteration of the producer loop: the value
offered to `push`, whether `push` succeeded, and whether the
`on_queue_full_` callback was invoked. -/
structure ProduceIterResult (T : Type) where
  offered : T
  succeeded : Bool
  callbackInvoked : Bool

/-- One iteration of the `produce` loop (`queue_producer.hpp` lines
117-162): call `data_generator_()` (modelled as the stream `gen` indexed by
the invocation count `k`), attempt `push`; on success reset `backoff` to 1
and clear `was_full`; on the first consecutive failure invoke the queue-full
callback, set `was_full` and `continue` (no backoff); on a later failure
spin for `backoff` iterations and double `backoff` while below 16384. -/
def produceIter {T : Type} {C : Nat} [NeZero C] (gen : Nat → T) (k : Nat)
    (s : ProducerState T C) : ProducerState T C × ProduceIterResult T :=
  let data := gen k
  let r := s.q.push data
  if r.1 then
    (⟨r.2, false, 1⟩, ⟨data, true, false⟩)
  else if s.wasFull = false then
    (⟨r.2, true, s.backoff⟩, ⟨data, false, true⟩)
  else
    (⟨r.2, true, if s.backoff < 16384 then s.backoff * 2 else s.backoff⟩,
     ⟨data, false, false⟩)

/-- Producer-loop state at the start of iteration `k`, starting from queue
`q0` with `backoff = 1` and `was_full = false` as in the source.  Between
iterations the environment `env` may transform the shared queue, modelling
concurrent consumers and other producers acting on it. -/
def pstate {T : Type} {C : Nat} [NeZero C] (gen : Nat → T)
    (env : Nat → LockFreeRingQueue T C → LockFreeRingQueue T C)
    (q0 : LockFreeRingQueue T C) : Nat → ProducerState T C
  | 0 => ⟨q0, false, 1⟩
  | k + 1 =>
      let s := (produceIter gen k (pstate gen env q0 k)).1
      ⟨env k s.q, s.wasFull, s.backoff⟩

/-- Events of iteration `k` of the producer loop. -/
def pres {T : Type} {C : Nat} [NeZero C] (gen : Nat → T)
    (env : Nat → LockFreeRingQueue T C → LockFreeRingQueue T C)
    (q0 : LockFreeRingQueue T C) (k : Nat) : ProduceIterResult T :=
  (produceIter gen k (pstate gen env q0 k)).2

/-- Value offered to `push` at iteration `k` of the producer loop. -/
def poff {T : Type} {C : Nat} [NeZero C] (gen : Nat → T)
    (env : Nat → LockFreeRingQueue T C → LockFreeRingQueue T C)
    (q0 : LockFreeRingQueue T C) (k : Nat) : T :=
  (pres gen env q0 k).offered

/-- Whether `push` succeeded at iteration `k` of the producer loop. -/
def psucc {T : Type} {C : Nat} [NeZero C] (gen : Nat → T)
    (env : Nat → LockFreeRingQueue T C → LockFreeRingQueue T C)
    (q0 : LockFreeRingQueue T C) (k : Nat) : Bool :=
  (pres gen env q0 k).succeeded

/-- Whether the queue-full callback fired at iteration `k` of the producer
loop. -/
def pcb {T : Type} {C : Nat} [NeZero C] (gen : Nat → T)
    (env : Nat → LockFreeRingQueue T C → LockFreeRingQueue T C)
    (q0 : LockFreeRingQueue T C) (k : Nat) : Bool :=
  (pres gen env q0 k).callbackInvoked

section ProducerLemmas

variable {T : Type} {C : Nat} [NeZero C]

theorem produceIter_offered (gen : Nat → T) (k : Nat) (s : ProducerState T C) :
    ((produceIter gen k s).2).offered = gen k := by
  unfold produceIter
  rcases h : s.q.push (gen k) with ⟨ok, q'⟩
  cases ok <;> by_cases hw : s.wasFull = false <;> simp [h, hw]

theorem produceIter_wasFull (gen : Nat → T) (k : Nat) (s : ProducerState T C) :
    ((produceIter gen k s).1).wasFull = !((produceIter gen k s).2).succeeded := by
  unfold produceIter
  rcases h : s.q.push (gen k) with ⟨ok, q'⟩
  cases ok <;> by_cases hw : s.wasFull = false <;> simp [h, hw]

theorem produceIter_callback (gen : Nat → T) (k : Nat) (s : ProducerState T C) :
    ((produceIter gen k s).2).callbackInvoked =
      (!((produceIter gen k s).2).succeeded && !s.wasFull) := by
  unfold produceIter
  rcases h : s.q.push (gen k) with ⟨ok, q'⟩
  cases ok <;> cases hw : s.wasFull <;> simp [h, hw]

theorem pstate_wasFull_succ (gen : Nat → T)
    (env : Nat → LockFreeRingQueue T C → LockFreeRingQueue T C)
    (q0 : LockFreeRingQueue T C) (k : Nat) :
    (pstate gen env q0 (k + 1)).wasFull = !(psucc gen env q0 k) := by
  show ((produceIter gen k (pstate gen env q0 k)).1).wasFull = _
  rw [produceIter_wasFull]
  rfl

end ProducerLemmas

/-- Claim C7: the queue-full callback fires at iteration `k` of the producer
loop exactly when `push` failed at `k` and this failure is the first one
since the last success (or since loop start), so the callback cannot fire
again before an intervening successful push. -/
theorem producer_callback_edge_triggered {T : Type} {C : Nat} [NeZero C]
    (gen : Nat → T) (env : Nat → LockFreeRingQueue T C → LockFreeRingQueue T C)
    (q0 : LockFreeRingQueue T C) (k : Nat) :
    pcb gen env q0 k = true ↔
      (psucc gen env q0 k = false ∧
        (k = 0 ∨ psucc gen env q0 (k - 1) = true)) := by
  have hcb : pcb gen env q0 k =
      (!(psucc gen env q0 k) && !(pstate gen env q0 k).wasFull) :=
    produceIter_callback gen k (pstate gen env q0 k)
  cases k with
  | zero =>
      have h0 : (pstate gen env q0 0).wasFull = false := rfl
      rw [hcb, h0]
      simp
  | succ j =>
      rw [hcb, pstate_wasFull_succ]
      constructor
      · intro h
        simp only [Bool.and_eq_true, Bool.not_eq_true'] at h
        refine ⟨h.1, Or.inr ?_⟩
        simpa using h.2
      · rintro ⟨h1, h2⟩
        rcases h2 with h2 | h2
        · exact absurd h2 (Nat.succ_ne_zero j)
        · simp only [Nat.succ_sub_one] at h2
          simp [h1, h2]

/-- Concrete producer run over a full queue of capacity 2: iteration 0
fails and fires the callback (edge-triggered, applied from the general
theorem). -/
theorem producer_callback_edge_triggered_witness :
    psucc (fun n => n) (fun _ q => q)
        (⟨setSlot (fun _ => none) (ringIdx 2 0) (some 99), 0, 1⟩ :
          LockFreeRingQueue Nat 2) 0 = false ∧
    pcb (fun n => n) (fun _ q => q)
        (⟨setSlot (fun _ => none) (ringIdx 2 0) (some 99), 0, 1⟩ :
          LockFreeRingQueue Nat 2) 0 = true :=
  ⟨by decide,
   (producer_callback_edge_triggered (fun n => n) (fun _ q => q)
      (⟨setSlot (fun _ => none) (ringIdx 2 0) (some 99), 0, 1⟩ :
        LockFreeRingQueue Nat 2) 0).mpr ⟨by decide, Or.inl rfl⟩⟩

/-- Counterexample to claim C1 as stated: over a full queue of capacity 2
with the identity generator stream, the push of iteration 0 fails, yet
iteration 1 offers a different value — the failed value is not retried. -/
theorem producer_retry_same_value_counterexample :
    psucc (fun n => n) (fun _ q => q)
        (⟨setSlot (fun _ => none) (ringIdx 2 0) (some 99), 0, 1⟩ :
          LockFreeRingQueue Nat 2) 0 = false ∧
    poff (fun n => n) (fun _ q => q)
        (⟨setSlot (fun _ => none) (ringIdx 2 0) (some 99), 0, 1⟩ :
          LockFreeRingQueue Nat 2) 1 ≠
      poff (fun n => n) (fun _ q => q)
        (⟨setSlot (fun _ => none) (ringIdx 2 0) (some 99), 0, 1⟩ :
          LockFreeRingQueue Nat 2) 0 := by
  decide

/-- Claim C1 as amended: every iteration of the producer loop — including
one following a failed push — invokes the generator anew and offers the
freshly generated value, so the value whose push failed is discarded, not
retried. -/
theorem producer_offers_fresh_value_each_iteration {T : Type} {C : Nat}
    [NeZero C] (gen : Nat → T)
    (env : Nat → LockFreeRingQueue T C → LockFreeRingQueue T C)
    (q0 : LockFreeRingQueue T C) (k : Nat) :
    poff gen env q0 k = gen k :=
  produceIter_offered gen k (pstate gen env q0 k)

/-- Witness for the amended C1 at a concrete run. -/
theorem producer_offers_fresh_value_each_iteration_witness :
    poff (fun n => n + 10) (fun _ q => q)
        (LockFreeRingQueue.emptyQueue Nat 3) 2 = 2 + 10 :=
  producer_offers_fresh_value_each_iteration (fun n => n + 10) (fun _ q => q)
    (LockFreeRingQueue.emptyQueue Nat 3) 2

/-- State held by the `LockFreeQueueReader::observe` worker loop from
`queue_observer.hpp`: the private read cursor `current_pos`, the `backoff`
counter and the `was_empty` flag (initialised to `0`, `1` and `false`). -/
structure ObserverState where
  cursor : Nat
  backoff : Nat
  wasEmpty : Bool

/-- Observable events of one iteration of the observer loop: whether the
`read_at` hit, the value passed to the `on_data` handler (if any), and
whether the backoff loop was executed. -/
structure ObserveIterResult (T : Type) where
  hit : Bool
  handled : Option T
  backoffEntered : Bool

/-- One iteration of the `observe` loop (`queue_observer.hpp` lines 43-83):
call `read_at(current_pos)`; on a value invoke `on_data`, advance the
cursor, reset `backoff` to 1 and clear `was_empty`; on the first miss set
`was_empty` and `continue` (retry the same position, no backoff); on a
further miss execute the backoff loop and double `backoff` while below
16384. -/
def observeIter {T : Type} {C : Nat} [NeZero C] (q : LockFreeRingQueue T C)
    (s : ObserverState) : ObserverState × ObserveIterResult T :=
  let result := (q.read_at s.cursor).1
  match result with
  | some v => (⟨s.cursor + 1, 1, false⟩, ⟨true, some v, false⟩)
  | none =>
      if s.wasEmpty = false then
        (⟨s.cursor, s.backoff, true⟩, ⟨false, none, false⟩)
      else
        (⟨s.cursor, if s.backoff < 16384 then s.backoff * 2 else s.backoff, true⟩,
         ⟨false, none, true⟩)

/-- Observer-loop state at the start of iteration `k`.  The queue the
observer sees at iteration `k` is `qs k`: the observer never mutates the
queue, and concurrent producers and consumers may change it between
iterations, so the queue evolution is an arbitrary stream of states. -/
def ostate {T : Type} {C : Nat} [NeZero C]
    (qs : Nat → LockFreeRingQueue T C) : Nat → ObserverState
  | 0 => ⟨0, 1, false⟩
  | k + 1 => (observeIter (qs k) (ostate qs k)).1

/-- Events of iteration `k` of the observer loop. -/
def ores {T : Type} {C : Nat} [NeZero C] (qs : Nat → LockFreeRingQueue T C)
    (k : Nat) : ObserveIterResult T :=
  (observeIter (qs k) (ostate qs k)).2

/-- Whether `read_at` hit at iteration `k` of the observer loop. -/
def ohit {T : Type} {C : Nat} [NeZero C] (qs : Nat → LockFreeRingQueue T C)
    (k : Nat) : Bool :=
  (ores qs k).hit

/-- Value handed to the `on_data` handler at iteration `k`, if any. -/
def ohandled {T : Type} {C : Nat} [NeZero C] (qs : Nat → LockFreeRingQueue T C)
    (k : Nat) : Option T :=
  (ores qs k).handled

/-- Whether the backoff loop executed at iteration `k` of the observer
loop. -/
def obentered {T : Type} {C : Nat} [NeZero C] (qs : Nat → LockFreeRingQueue T C)
    (k : Nat) : Bool :=
  (ores qs k).backoffEntered

/-- The observer cursor at the start of iteration `k`. -/
def ocursor {T : Type} {C : Nat} [NeZero C] (qs : Nat → LockFreeRingQueue T C)
    (k : Nat) : Nat :=
  (ostate qs k).cursor

/-- The observer backoff counter at the start of iteration `k`. -/
def obval {T : Type} {C : Nat} [NeZero C] (qs : Nat → LockFreeRingQueue T C)
    (k : Nat) : Nat :=
  (ostate qs k).backoff

section ObserverLemmas

variable {T : Type} {C : Nat} [NeZero C]

theorem observeIter_wasEmpty (q : LockFreeRingQueue T C) (s : ObserverState) :
    ((observeIter q s).1).wasEmpty = !((observeIter q s).2).hit := by
  unfold observeIter
  cases h : (q.read_at s.cursor).1 <;> cases hw : s.wasEmpty <;> simp [h, hw]

theorem observeIter_backoffEntered (q : LockFreeRingQueue T C)
    (s : ObserverState) :
    ((observeIter q s).2).backoffEntered =
      (!((observeIter q s).2).hit && s.wasEmpty) := by
  unfold observeIter
  cases h : (q.read_at s.cursor).1 <;> cases hw : s.wasEmpty <;> simp [h, hw]

theorem observeIter_handled (q : LockFreeRingQueue T C) (s : ObserverState) :
    ((observeIter q s).2).handled = (q.read_at s.cursor).1 := by
  unfold observeIter
  cases h : (q.read_at s.cursor).1 <;> cases hw : s.wasEmpty <;> simp [h, hw]

theorem observeIter_miss_cursor (q : LockFreeRingQueue T C) (s : ObserverState)
    (h : ((observeIter q s).2).hit = false) :
    ((observeIter q s).1).cursor = s.cursor := by
  unfold observeIter at h ⊢
  cases hr : (q.read_at s.cursor).1 <;> cases hw : s.wasEmpty <;>
    simp [hr, hw] at h ⊢

theorem observeIter_first_miss_backoff (q : LockFreeRingQueue T C)
    (s : ObserverState) (h : ((observeIter q s).2).hit = false)
    (hw : s.wasEmpty = false) :
    ((observeIter q s).1).backoff = s.backoff := by
  unfold observeIter at h ⊢
  cases hr : (q.read_at s.cursor).1 <;> simp [hr, hw] at h ⊢

theorem observeIter_hit_step (q : LockFreeRingQueue T C) (s : ObserverState)
    (h : ((observeIter q s).2).hit = true) :
    ((observeIter q s).1).cursor = s.cursor + 1 ∧
      ((observeIter q s).1).backoff = 1 ∧
      ((observeIter q s).1).wasEmpty = false := by
  unfold observeIter at h ⊢
  cases hr : (q.read_at s.cursor).1 <;> cases hw : s.wasEmpty <;>
    simp [hr, hw] at h ⊢

theorem ostate_wasEmpty_succ (qs : Nat → LockFreeRingQueue T C) (k : Nat) :
    (ostate qs (k + 1)).wasEmpty = !(ohit qs k) := by
  show ((observeIter (qs k) (ostate qs k)).1).wasEmpty = _
  rw [observeIter_wasEmpty]
  rfl

end ObserverLemmas

/-- Claim C8: in every execution of the observer loop, a `read_at` miss
leaves the cursor at the same position for the next iteration; when the miss
is the first one after a hit (or after loop start) no backoff is executed and
the backoff counter is unchanged, so the same position is retried once
immediately; the backoff loop executes exactly on the second or later of
consecutive misses; and on a hit the handler receives the value read at the
cursor, the cursor advances by one, and the backoff state resets. -/
theorem observer_double_miss_backoff {T : Type} {C : Nat} [NeZero C]
    (qs : Nat → LockFreeRingQueue T C) (k : Nat) :
    (obentered qs k = true ↔
      (ohit qs k = false ∧ 1 ≤ k ∧ ohit qs (k - 1) = false)) ∧
    (ohit qs k = false → ocursor qs (k + 1) = ocursor qs k) ∧
    ((ohit qs k = false ∧ (k = 0 ∨ ohit qs (k - 1) = true)) →
      obentered qs k = false ∧ obval qs (k + 1) = obval qs k) ∧
    (ohit qs k = true →
      ohandled qs k = ((qs k).read_at (ocursor qs k)).1 ∧
      ocursor qs (k + 1) = ocursor qs k + 1 ∧ obval qs (k + 1) = 1) := by
  have hbe : obentered qs k = (!(ohit qs k) && (ostate qs k).wasEmpty) :=
    observeIter_backoffEntered (qs k) (ostate qs k)
  have hwe : (ostate qs k).wasEmpty = if k = 0 then false else !(ohit qs (k - 1)) := by
    cases k with
    | zero => rfl
    | succ j => simp [ostate_wasEmpty_succ]
  refine ⟨?_, fun hmiss => ?_, fun hfirst => ?_, fun hhit => ?_⟩
  · rw [hbe, hwe]
    cases k with
    | zero => simp
    | succ j =>
        simp only [Nat.succ_ne_zero, if_false, Nat.succ_sub_one]
        constructor
        · intro h
          simp only [Bool.and_eq_true, Bool.not_eq_true'] at h
          exact ⟨h.1, Nat.succ_le_succ (Nat.zero_le j), by simpa using h.2⟩
        · rintro ⟨h1, _, h3⟩
          simp [h1, h3]
  · exact observeIter_miss_cursor (qs k) (ostate qs k) hmiss
  · obtain ⟨hmiss, hprev⟩ := hfirst
    have hw0 : (ostate qs k).wasEmpty = false := by
      rw [hwe]
      rcases hprev with h | h
      · simp [h]
      · cases k with
        | zero => rfl
        | succ j => simp only [Nat.succ_ne_zero, if_false, Nat.succ_sub_one] at h ⊢; simp [h]
    constructor
    · rw [hbe, hw0]
      simp
    · exact observeIter_first_miss_backoff (qs k) (ostate qs k) hmiss hw0
  · refine ⟨observeIter_handled (qs k) (ostate qs k), ?_, ?_⟩
    · exact (observeIter_hit_step (qs k) (ostate qs k) hhit).1
    · exact (observeIter_hit_step (qs k) (ostate qs k) hhit).2.1

/-- Witness for C8: over a constantly empty queue of capacity 2 every
iteration misses, so iteration 0 retries without backoff and iteration 1
enters the backoff loop; over a constantly occupied queue iteration 0 hits
and advances the cursor. -/
theorem observer_double_miss_backoff_witness :
    (obentered (fun _ => LockFreeRingQueue.emptyQueue Nat 2) 0 = false ∧
      obval (fun _ => LockFreeRingQueue.emptyQueue Nat 2) 1 =
        obval (fun _ => LockFreeRingQueue.emptyQueue Nat 2) 0) ∧
    (obentered (fun _ => LockFreeRingQueue.emptyQueue Nat 2) 1 = true) ∧
    (ohandled (fun _ => (⟨fun _ => some 3, 0, 1⟩ : LockFreeRingQueue Nat 2)) 0 =
        ((⟨fun _ => some 3, 0, 1⟩ : LockFreeRingQueue Nat 2).read_at
          (ocursor (fun _ => (⟨fun _ => some 3, 0, 1⟩ : LockFreeRingQueue Nat 2)) 0)).1 ∧
      ocursor (fun _ => (⟨fun _ => some 3, 0, 1⟩ : LockFreeRingQueue Nat 2)) 1 =
        ocursor (fun _ => (⟨fun _ => some 3, 0, 1⟩ : LockFreeRingQueue Nat 2)) 0 + 1 ∧
      obval (fun _ => (⟨fun _ => some 3, 0, 1⟩ : LockFreeRingQueue Nat 2)) 1 = 1) :=
  ⟨(observer_double_miss_backoff (fun _ => LockFreeRingQueue.emptyQueue Nat 2)
      0).2.2.1 ⟨by decide, Or.inl rfl⟩,
   (observer_double_miss_backoff (fun _ => LockFreeRingQueue.emptyQueue Nat 2)
      1).1.mpr ⟨by decide, le_refl 1, by decide⟩,
   (observer_double_miss_backoff
      (fun _ => (⟨fun _ => some 3, 0, 1⟩ : LockFreeRingQueue Nat 2)) 0).2.2.2
      (by decide)⟩

/-- Claim C4: whenever `(write_index + 1) % Capacity = read_index` the push
returns `false` with the whole queue state unchanged, and whenever the
allocation of the element copy fails (`allocOk = false`) the push likewise
returns `false` with no state mutated. -/
theorem push_full_or_alloc_fail_no_mutation {T : Type} {C : Nat} [NeZero C]
    (q : LockFreeRingQueue T C) (v : T) (allocOk : Bool) :
    ((q.write_index + 1) % C = q.read_index →
      q.pushAlloc v allocOk = (false, q)) ∧
    (allocOk = false → q.pushAlloc v allocOk = (false, q)) := by
  constructor
  · intro hfull
    simp [LockFreeRingQueue.pushAlloc, hfull]
  · intro halloc
    subst halloc
    by_cases hfull : (q.write_index + 1) % C = q.read_index <;>
      simp [LockFreeRingQueue.pushAlloc, hfull]

/-- Witness for C4 at a concrete full queue (capacity 2, one live element)
and a concrete allocation failure. -/
theorem push_full_or_alloc_fail_no_mutation_witness :
    (LockFreeRingQueue.pushAlloc
      (⟨setSlot (fun _ => none) (ringIdx 2 0) (some 7), 0, 1⟩ :
        LockFreeRingQueue Nat 2) 5 true =
      (false, ⟨setSlot (fun _ => none) (ringIdx 2 0) (some 7), 0, 1⟩)) ∧
    (LockFreeRingQueue.pushAlloc (LockFreeRingQueue.emptyQueue Nat 4) 5 false =
      (false, LockFreeRingQueue.emptyQueue Nat 4)) :=
  ⟨(push_full_or_alloc_fail_no_mutation _ 5 true).1 (by decide),
   (push_full_or_alloc_fail_no_mutation _ 5 false).2 rfl⟩

/-- Claim C5: `pop` returns `none` and leaves the state alone when the two
cursors are equal; otherwise it exchanges the slot at `read_index` for
empty, returns `none` if the captured previous value was empty, and on a
captured element advances `read_index` by one modulo the capacity and
returns the element. -/
theorem pop_case_semantics {T : Type} {C : Nat} [NeZero C]
    (q : LockFreeRingQueue T C) :
    (q.read_index = q.write_index → q.pop = (none, q)) ∧
    (q.read_index ≠ q.write_index → q.buffer (ringIdx C q.read_index) = none →
      q.pop = (none, ⟨setSlot q.buffer (ringIdx C q.read_index) none,
                      q.read_index, q.write_index⟩)) ∧
    (∀ v : T, q.read_index ≠ q.write_index →
      q.buffer (ringIdx C q.read_index) = some v →
      q.pop = (some v, ⟨setSlot q.buffer (ringIdx C q.read_index) none,
                        (q.read_index + 1) % C, q.write_index⟩)) := by
  refine ⟨fun hempty => ?_, fun hne hslot => ?_, fun v hne hslot => ?_⟩
  · simp [LockFreeRingQueue.pop, hempty]
  · simp [LockFreeRingQueue.pop, hne, hslot]
  · simp [LockFreeRingQueue.pop, hne, hslot]

/-- Witness for C5: the three cases of `pop` evaluated on concrete queues of
capacity 2. -/
theorem pop_case_semantics_witness :
    (LockFreeRingQueue.pop (LockFreeRingQueue.emptyQueue Nat 2) =
      (none, LockFreeRingQueue.emptyQueue Nat 2)) ∧
    (LockFreeRingQueue.pop
        (⟨fun _ => none, 0, 1⟩ : LockFreeRingQueue Nat 2) =
      (none, ⟨setSlot (fun _ => none) (ringIdx 2 0) none, 0, 1⟩)) ∧
    (LockFreeRingQueue.pop
        (⟨setSlot (fun _ => none) (ringIdx 2 0) (some 9), 0, 1⟩ :
          LockFreeRingQueue Nat 2) =
      (some 9, ⟨setSlot (setSlot (fun _ => none) (ringIdx 2 0) (some 9))
                  (ringIdx 2 0) none, 1 % 2, 1⟩)) :=
  ⟨(pop_case_semantics (LockFreeRingQueue.emptyQueue Nat 2)).1 rfl,
   (pop_case_semantics _).2.1 (by decide) (by decide),
   (pop_case_semantics _).2.2 9 (by decide) (by decide)⟩

/-- Claim C10: whenever `pop` returns `none` — either because the cursors
coincide or because the slot exchange captured an empty slot — the whole
queue state (both cursors and every slot) is unchanged. -/
theorem pop_none_no_mutation {T : Type} {C : Nat} [NeZero C]
    (q : LockFreeRingQueue T C) (h : (q.pop).1 = none) : (q.pop).2 = q := by
  by_cases hempty : q.read_index = q.write_index
  · simp [LockFreeRingQueue.pop, hempty]
  · cases hslot : q.buffer (ringIdx C q.read_index) with
    | none =>
        have hbuf := setSlot_none_of_none q.buffer (ringIdx C q.read_index) hslot
        simp [LockFreeRingQueue.pop, hempty, hslot, hbuf]
    | some v =>
        exfalso
        have : (q.pop).1 = some v := by
          simp [LockFreeRingQueue.pop, hempty, hslot]
        rw [this] at h
        exact Option.some_ne_none v h

/-- Witness for C10 at a concrete queue whose cursors disagree but whose
slot at `read_index` is empty, so `pop` returns `none` via the raced-empty
branch. -/
theorem pop_none_no_mutation_witness :
    (LockFreeRingQueue.pop
        (⟨fun _ => none, 0, 1⟩ : LockFreeRingQueue Nat 2)).2 =
      (⟨fun _ => none, 0, 1⟩ : LockFreeRingQueue Nat 2) :=
  pop_none_no_mutation (⟨fun _ => none, 0, 1⟩ : LockFreeRingQueue Nat 2)
    (by decide)

/-- Claim C6: `read_at` never mutates the queue state, returns `none` for an
offset at or beyond the capacity, otherwise returns exactly the content of
the slot at `(read_index + offset) % Capacity` (a copy when occupied, `none`
when empty), and a repeated call at the same offset returns the same
value. -/
theorem read_at_peek_stability {T : Type} {C : Nat} [NeZero C]
    (q : LockFreeRingQueue T C) (index : Nat) :
    ((q.read_at index).2 = q) ∧
    (C ≤ index → (q.read_at index).1 = none) ∧
    (index < C →
      (q.read_at index).1 = q.buffer (ringIdx C (q.read_index + index))) ∧
    (((q.read_at index).2.read_at index).1 = (q.read_at index).1) := by
  refine ⟨?_, fun hge => ?_, fun hlt => ?_, ?_⟩
  · by_cases h : C ≤ index <;> simp [LockFreeRingQueue.read_at, h]
  · simp [LockFreeRingQueue.read_at, hge]
  · simp [LockFreeRingQueue.read_at, Nat.not_le.mpr hlt, ringIdx_mod]
  · by_cases h : C ≤ index <;> simp [LockFreeRingQueue.read_at, h]

/-- Witness for C6 on a concrete one-element queue of capacity 3, at an
in-range and an out-of-range offset. -/
theorem read_at_peek_stability_witness :
    ((LockFreeRingQueue.read_at
        (⟨setSlot (fun _ => none) (ringIdx 3 0) (some 4), 0, 1⟩ :
          LockFreeRingQueue Nat 3) 0).1 =
      (⟨setSlot (fun _ => none) (ringIdx 3 0) (some 4), 0, 1⟩ :
        LockFreeRingQueue Nat 3).buffer (ringIdx 3 (0 + 0))) ∧
    ((LockFreeRingQueue.read_at
        (⟨setSlot (fun _ => none) (ringIdx 3 0) (some 4), 0, 1⟩ :
          LockFreeRingQueue Nat 3) 5).1 = none) :=
  ⟨(read_at_peek_stability _ 0).2.2.1 (by decide),
   (read_at_peek_stability _ 5).2.1 (by decide)⟩

/-- State of `MemoryPool<T>` from `memory_pool.hpp`.  An address is
modelled as a pair (block identifier, slot index inside the block), which
mirrors the C++ byte address `current_block_ + index * sizeof(T)` — two
addresses coincide exactly when both block and in-block offset coincide.
`next_block_id` models the operating system handing out a fresh anonymous
mapping for each `mmap` call; `freed_objects` is the free-set (insertion at
the front, `begin()` takes the front). -/
structure MemoryPool where
  block_size : Nat
  blocks : List Nat
  current_block : Nat
  current_index : Nat
  freed_objects : List (Nat × Nat)
  next_block_id : Nat

/-- `MemoryPool::allocate_block` from `memory_pool.hpp` lines 73-82: map a
fresh block, record it in `blocks_`, make it current and reset the bump
cursor. -/
def allocate_block (p : MemoryPool) : MemoryPool :=
  { p with
    current_block := p.next_block_id,
    blocks := p.blocks ++ [p.next_block_id],
    next_block_id := p.next_block_id + 1,
    current_index := 0 }

/-- The `MemoryPool` constructor: store the block size and map the first
block. -/
def mkPool (bs : Nat) : MemoryPool :=
  allocate_block ⟨bs, [], 0, 0, [], 0⟩

/-- `MemoryPool::allocate` from `memory_pool.hpp` lines 36-48: take an
address from the free-set if non-empty; otherwise, after mapping a new
block if the current one is exhausted, take the next unused slot of the
current block, post-incrementing the bump cursor. -/
def MemoryPool.allocate (p : MemoryPool) : (Nat × Nat) × MemoryPool :=
  match p.freed_objects with
  | obj :: rest => (obj, { p with freed_objects := rest })
  | [] =>
      let p1 := if p.block_size ≤ p.current_index then allocate_block p else p
      ((p1.current_block, p1.current_index),
       { p1 with current_index := p1.current_index + 1 })

/-- `MemoryPool::deallocate` from `memory_pool.hpp` lines 54-61: destruct in
place (no address change) and record the address in the free-set. -/
def MemoryPool.deallocate (p : MemoryPool) (obj : Nat × Nat) : MemoryPool :=
  { p with freed_objects := obj :: p.freed_objects }

/-- Claim C9: on a fresh pool with `block_size = 2`, the first two
`allocate` calls return distinct addresses inside the first block; the
third call maps a second block and returns an address inside it; and after
`deallocate` of one of the live addresses, the next `allocate` returns
exactly that freed address while leaving the bump cursor where it was. -/
theorem memory_pool_block_and_reuse_scenario :
    ((mkPool 2).allocate.1 ≠ (mkPool 2).allocate.2.allocate.1) ∧
    ((mkPool 2).allocate.1.1 = (mkPool 2).blocks.head?.getD 0 ∧
      (mkPool 2).allocate.2.allocate.1.1 = (mkPool 2).blocks.head?.getD 0) ∧
    ((mkPool 2).allocate.2.allocate.2.allocate.2.blocks.length = 2 ∧
      (mkPool 2).allocate.2.allocate.2.allocate.1.1 ≠
        (mkPool 2).blocks.head?.getD 0 ∧
      (mkPool 2).allocate.2.allocate.2.allocate.1.1 =
        ((mkPool 2).allocate.2.allocate.2.allocate.2.blocks.getLast? ).getD 0) ∧
    ((((mkPool 2).allocate.2.allocate.2.allocate.2.deallocate
          (mkPool 2).allocate.1).allocate).1 = (mkPool 2).allocate.1 ∧
      (((mkPool 2).allocate.2.allocate.2.allocate.2.deallocate
          (mkPool 2).allocate.1).allocate).2.current_index =
        (mkPool 2).allocate.2.allocate.2.allocate.2.current_index) := by
  decide

/-- One operation of a sequential push/pop workload against the queue. -/
inductive QueueOp (T : Type) where
  | push (v : T)
  | pop

/-- Apply one operation to the queue, keeping only the successor state. -/
def applyOp {T : Type} {C : Nat} [NeZero C] (q : LockFreeRingQueue T C) :
    QueueOp T → LockFreeRingQueue T C
  | QueueOp.push v => (q.push v).2
  | QueueOp.pop => (q.pop).2

/-- Apply a sequence of operations to the queue. -/
def applyOps {T : Type} {C : Nat} [NeZero C] (q : LockFreeRingQueue T C)
    (ops : List (QueueOp T)) : LockFreeRingQueue T C :=
  ops.foldl applyOp q

/-- Run a sequence of operations, returning the final queue together with
the chronological list of values accepted by successful pushes and the
chronological list of values returned by successful pops. -/
def runOps {T : Type} {C : Nat} [NeZero C] (q : LockFreeRingQueue T C) :
    List (QueueOp T) → LockFreeRingQueue T C × List T × List T
  | [] => (q, [], [])
  | QueueOp.push v :: rest =>
      let r := q.push v
      let t := runOps r.2 rest
      (t.1, if r.1 then v :: t.2.1 else t.2.1, t.2.2)
  | QueueOp.pop :: rest =>
      let r := q.pop
      let t := runOps r.2 rest
      (t.1, t.2.1, match r.1 with | some v => v :: t.2.2 | none => t.2.2)

/-- Number of occupied slots of the queue (slots holding an element not yet
consumed). -/
def LockFreeRingQueue.count {T : Type} {C : Nat}
    (q : LockFreeRingQueue T C) : Nat :=
  (Finset.univ.filter fun i : Fin C => (q.buffer i).isSome = true).card

/-- Cyclic distance from ring position `r` to ring position `i` on a ring of
`C` slots, for positions below `C`. -/
def posIdx (C r i : Nat) : Nat :=
  if r ≤ i then i - r else C + i - r

/-- Abstraction relation for the sequential workload: queue `q` represents
the list `l` of live values, oldest first.  Both cursors are reduced, `l`
spans exactly the cyclic cursor distance, and slot `i` holds the element of
`l` at the cyclic distance from `read_index` to `i` (no element beyond the
end of `l`). -/
def AbsRel {T : Type} {C : Nat} (q : LockFreeRingQueue T C) (l : List T) :
    Prop :=
  q.read_index < C ∧ q.write_index < C ∧
  l.length = posIdx C q.read_index q.write_index ∧
  ∀ i : Fin C, q.buffer i = l[posIdx C q.read_index i.val]?

section RingArith

variable {C r w i j x : Nat}

theorem posIdx_lt (hr : r < C) (hi : i < C) : posIdx C r i < C := by
  unfold posIdx
  split <;> omega

theorem posIdx_self (C r : Nat) : posIdx C r r = 0 := by
  simp [posIdx]

theorem posIdx_inj (hr : r < C) (hi : i < C) (hj : j < C)
    (h : posIdx C r i = posIdx C r j) : i = j := by
  unfold posIdx at h
  split at h <;> split at h <;> omega

theorem succ_mod_eq (h : x < C) :
    (x + 1) % C = if x + 1 = C then 0 else x + 1 := by
  by_cases hx : x + 1 = C
  · rw [if_pos hx, hx, Nat.mod_self]
  · rw [if_neg hx]
    exact Nat.mod_eq_of_lt (by omega)

theorem ring_full_iff (hr : r < C) (hw : w < C) :
    (w + 1) % C = r ↔ posIdx C r w = C - 1 := by
  rw [succ_mod_eq hw]
  unfold posIdx
  split <;> split <;> omega

theorem ring_empty_iff (hr : r < C) (_hw : w < C) :
    r = w ↔ posIdx C r w = 0 := by
  unfold posIdx
  split <;> omega

theorem posIdx_succ_write (hr : r < C) (hw : w < C)
    (h : posIdx C r w ≠ C - 1) :
    posIdx C r ((w + 1) % C) = posIdx C r w + 1 := by
  rw [succ_mod_eq hw]
  unfold posIdx at h
  by_cases hx : w + 1 = C
  · rw [if_pos hx]
    unfold posIdx
    split at h <;> split <;> omega
  · rw [if_neg hx]
    unfold posIdx
    split at h <;> split <;> omega

theorem posIdx_succ_read_ne (hr : r < C) (hi : i < C) (hne : i ≠ r) :
    posIdx C ((r + 1) % C) i + 1 = posIdx C r i := by
  rw [succ_mod_eq hr]
  by_cases hx : r + 1 = C
  · rw [if_pos hx]
    unfold posIdx
    split <;> split <;> omega
  · rw [if_neg hx]
    unfold posIdx
    split <;> split <;> omega

theorem posIdx_succ_read_self (hr : r < C) :
    posIdx C ((r + 1) % C) r = C - 1 := by
  rw [succ_mod_eq hr]
  by_cases hx : r + 1 = C
  · rw [if_pos hx]
    unfold posIdx
    split <;> omega
  · rw [if_neg hx]
    unfold posIdx
    split <;> omega

theorem ringIdx_val_of_lt [NeZero C] (h : x < C) :
    ringIdx C x = ⟨x, h⟩ := by
  apply Fin.ext
  exact Nat.mod_eq_of_lt h

end RingArith

section Simulation

variable {T : Type} {C : Nat} [NeZero C]

theorem absRel_empty : AbsRel (LockFreeRingQueue.emptyQueue T C) ([] : List T) := by
  have hC : 0 < C := Nat.pos_of_ne_zero (NeZero.ne C)
  refine ⟨hC, hC, ?_, ?_⟩
  · simp [posIdx_self, LockFreeRingQueue.emptyQueue]
  · intro i
    simp [LockFreeRingQueue.emptyQueue, List.getElem?_nil]

theorem absRel_write_slot {q : LockFreeRingQueue T C} {l : List T}
    (h : AbsRel q l) : q.buffer (ringIdx C q.write_index) = none := by
  obtain ⟨hr, hw, hlen, hslots⟩ := h
  rw [ringIdx_val_of_lt hw]
  have hs := hslots ⟨q.write_index, hw⟩
  rw [hs]
  simp only [← hlen]
  exact List.getElem?_eq_none (le_refl _)

theorem push_fails_of_full (q : LockFreeRingQueue T C) (v : T)
    (h : (q.write_index + 1) % C = q.read_index) : q.push v = (false, q) := by
  simp [LockFreeRingQueue.push, LockFreeRingQueue.pushAlloc, h]

theorem absRel_push {q : LockFreeRingQueue T C} {l : List T} (h : AbsRel q l)
    (v : T) (hn : (q.write_index + 1) % C ≠ q.read_index) :
    q.push v = (true, ⟨setSlot q.buffer (ringIdx C q.write_index) (some v),
        q.read_index, (q.write_index + 1) % C⟩) ∧
    AbsRel (⟨setSlot q.buffer (ringIdx C q.write_index) (some v),
        q.read_index, (q.write_index + 1) % C⟩ : LockFreeRingQueue T C)
      (l ++ [v]) := by
  have hslotw := absRel_write_slot h
  obtain ⟨hr, hw, hlen, hslots⟩ := h
  have hC : 0 < C := Nat.pos_of_ne_zero (NeZero.ne C)
  have hdist : posIdx C q.read_index q.write_index ≠ C - 1 :=
    fun hfull => hn ((ring_full_iff hr hw).mpr hfull)
  constructor
  · simp [LockFreeRingQueue.push, LockFreeRingQueue.pushAlloc, hn, hslotw]
  · refine ⟨hr, Nat.mod_lt _ hC, ?_, ?_⟩
    · simp only [List.length_append, List.length_singleton, hlen]
      exact (posIdx_succ_write hr hw hdist).symm
    · intro i
      dsimp only
      by_cases hi : i = ringIdx C q.write_index
      · subst hi
        rw [setSlot_self, ringIdx_val_of_lt hw]
        show some v = (l ++ [v])[posIdx C q.read_index q.write_index]?
        rw [← hlen]
        exact (List.getElem?_concat_length l v).symm
      · rw [setSlot_other _ _ hi, hslots i]
        have hvi : i.val ≠ q.write_index := by
          intro hv
          apply hi
          rw [ringIdx_val_of_lt hw]
          exact Fin.ext hv
        have hk : posIdx C q.read_index i.val ≠ l.length := by
          rw [hlen]
          intro hk
          exact hvi (posIdx_inj hr i.isLt hw hk)
        rcases Nat.lt_or_ge (posIdx C q.read_index i.val) l.length with hlt | hge
        · exact (List.getElem?_append_left hlt).symm
        · have hgt : l.length < posIdx C q.read_index i.val :=
            lt_of_le_of_ne hge (fun he => hk he.symm)
          rw [List.getElem?_eq_none (le_of_lt hgt),
            List.getElem?_eq_none (by simp; omega)]

theorem pop_empty_of_absRel {q : LockFreeRingQueue T C} (h : AbsRel q []) :
    q.pop = (none, q) := by
  obtain ⟨hr, hw, hlen, hslots⟩ := h
  have hrw : q.read_index = q.write_index :=
    (ring_empty_iff hr hw).mpr (by simpa using hlen.symm)
  simp [LockFreeRingQueue.pop, hrw]

theorem absRel_pop_cons {q : LockFreeRingQueue T C} {v : T} {t : List T}
    (h : AbsRel q (v :: t)) :
    q.pop = (some v, ⟨setSlot q.buffer (ringIdx C q.read_index) none,
        (q.read_index + 1) % C, q.write_index⟩) ∧
    AbsRel (⟨setSlot q.buffer (ringIdx C q.read_index) none,
        (q.read_index + 1) % C, q.write_index⟩ : LockFreeRingQueue T C) t := by
  obtain ⟨hr, hw, hlen, hslots⟩ := h
  have hC : 0 < C := Nat.pos_of_ne_zero (NeZero.ne C)
  have hlen' : posIdx C q.read_index q.write_index = t.length + 1 := by
    simpa using hlen.symm
  have hne : q.read_index ≠ q.write_index := by
    intro hrw
    have := (ring_empty_iff hr hw).mp hrw
    omega
  have hslotr : q.buffer (ringIdx C q.read_index) = some v := by
    rw [ringIdx_val_of_lt hr]
    have hs := hslots ⟨q.read_index, hr⟩
    rw [hs]
    show ((v :: t)[posIdx C q.read_index q.read_index]? : Option T) = some v
    rw [posIdx_self]
    exact List.getElem?_cons_zero
  constructor
  · simp [LockFreeRingQueue.pop, hne, hslotr]
  · refine ⟨Nat.mod_lt _ hC, hw, ?_, ?_⟩
    · dsimp only
      have := posIdx_succ_read_ne hr hw (Ne.symm hne)
      omega
    · intro i
      dsimp only
      by_cases hi : i = ringIdx C q.read_index
      · subst hi
        rw [setSlot_self, ringIdx_val_of_lt hr]
        show (none : Option T) =
          t[posIdx C ((q.read_index + 1) % C) q.read_index]?
        rw [posIdx_succ_read_self hr]
        have hdlt : posIdx C q.read_index q.write_index < C := posIdx_lt hr hw
        exact (List.getElem?_eq_none (by omega)).symm
      · rw [setSlot_other _ _ hi, hslots i]
        have hvi : i.val ≠ q.read_index := by
          intro hv
          apply hi
          rw [ringIdx_val_of_lt hr]
          exact Fin.ext hv
        have hk := posIdx_succ_read_ne hr i.isLt hvi
        rw [← hk]
        exact List.getElem?_cons_succ

theorem runOps_sim : ∀ (ops : List (QueueOp T)) (q : LockFreeRingQueue T C)
    (l : List T), AbsRel q l →
    ∃ lf, AbsRel (runOps q ops).1 lf ∧
      l ++ (runOps q ops).2.1 = (runOps q ops).2.2 ++ lf := by
  intro ops
  induction ops with
  | nil =>
      intro q l h
      exact ⟨l, h, by simp [runOps]⟩
  | cons op rest ih =>
      intro q l h
      cases op with
      | push v =>
          by_cases hfull : (q.write_index + 1) % C = q.read_index
          · have heq := push_fails_of_full q v hfull
            obtain ⟨lf, habs, hacc⟩ := ih q l h
            refine ⟨lf, ?_, ?_⟩
            · simpa [runOps, heq] using habs
            · simpa [runOps, heq] using hacc
          · obtain ⟨heq, habs'⟩ := absRel_push h v hfull
            obtain ⟨lf, habs, hacc⟩ := ih _ (l ++ [v]) habs'
            refine ⟨lf, ?_, ?_⟩
            · simpa [runOps, heq] using habs
            · simpa [runOps, heq, List.append_assoc] using hacc
      | pop =>
          cases l with
          | nil =>
              have heq := pop_empty_of_absRel h
              obtain ⟨lf, habs, hacc⟩ := ih q [] h
              refine ⟨lf, ?_, ?_⟩
              · simpa [runOps, heq] using habs
              · simpa [runOps, heq] using hacc
          | cons v t =>
              obtain ⟨heq, habs'⟩ := absRel_pop_cons h
              obtain ⟨lf, habs, hacc⟩ := ih _ t habs'
              refine ⟨lf, ?_, ?_⟩
              · simpa [runOps, heq] using habs
              · simpa [runOps, heq] using congrArg (List.cons v) hacc

theorem runOps_fst : ∀ (ops : List (QueueOp T)) (q : LockFreeRingQueue T C),
    (runOps q ops).1 = applyOps q ops := by
  intro ops
  induction ops with
  | nil => intro q; simp [runOps, applyOps]
  | cons op rest ih =>
      intro q
      cases op with
      | push v => simpa [runOps, applyOps, applyOp] using ih (q.push v).2
      | pop => simpa [runOps, applyOps, applyOp] using ih (q.pop).2

theorem count_le_of_absRel {q : LockFreeRingQueue T C} {l : List T}
    (h : AbsRel q l) : q.count ≤ C - 1 := by
  have hw : q.write_index < C := h.2.1
  have hslotw := absRel_write_slot h
  rw [ringIdx_val_of_lt hw] at hslotw
  have hsub : (Finset.univ.filter fun i : Fin C => (q.buffer i).isSome = true) ⊆
      Finset.univ.erase ⟨q.write_index, hw⟩ := by
    intro j hj
    rw [Finset.mem_filter] at hj
    rw [Finset.mem_erase]
    refine ⟨?_, Finset.mem_univ j⟩
    intro hjw
    rw [hjw, hslotw] at hj
    simp at hj
  calc (Finset.univ.filter fun i : Fin C => (q.buffer i).isSome = true).card
      ≤ (Finset.univ.erase (⟨q.write_index, hw⟩ : Fin C)).card :=
        Finset.card_le_card hsub
    _ = C - 1 := by
        rw [Finset.card_erase_of_mem (Finset.mem_univ _)]
        simp

end Simulation

/-- Claim C2: capacity invariant — after any sequence of push and pop
operations applied to the initially empty queue of capacity `C ≥ 2`, the
number of occupied slots never exceeds `C - 1` (one slot always stays free
as the sentinel gap). -/
theorem queue_capacity_invariant {T : Type} {C : Nat} [NeZero C]
    (_hC : 2 ≤ C) (ops : List (QueueOp T)) :
    (applyOps (LockFreeRingQueue.emptyQueue T C) ops).count ≤ C - 1 := by
  obtain ⟨lf, habs, _⟩ :=
    runOps_sim ops (LockFreeRingQueue.emptyQueue T C) [] absRel_empty
  rw [← runOps_fst]
  exact count_le_of_absRel habs

/-- Witness for C2 on a concrete workload of capacity 3 that fills the
queue, overflows it, pops and refills. -/
theorem queue_capacity_invariant_witness :
    2 ≤ 3 ∧
      (applyOps (LockFreeRingQueue.emptyQueue Nat 3)
          [QueueOp.push 1, QueueOp.push 2, QueueOp.push 3, QueueOp.pop,
           QueueOp.push 4, QueueOp.push 5]).count ≤ 3 - 1 :=
  ⟨by decide,
   queue_capacity_invariant (by decide)
     [QueueOp.push 1, QueueOp.push 2, QueueOp.push 3, QueueOp.pop,
      QueueOp.push 4, QueueOp.push 5]⟩

/-- Claim C3: FIFO ordering — in a sequential execution of any sequence of
pushes and pops from the empty queue, the chronological list of values
returned by successful pops is a prefix of the chronological list of values
accepted by successful pushes, i.e. pops return exactly the pushed values in
push order. -/
theorem queue_fifo_order {T : Type} {C : Nat} [NeZero C]
    (ops : List (QueueOp T)) :
    (runOps (LockFreeRingQueue.emptyQueue T C) ops).2.2 <+:
      (runOps (LockFreeRingQueue.emptyQueue T C) ops).2.1 := by
  obtain ⟨lf, _, hacc⟩ :=
    runOps_sim ops (LockFreeRingQueue.emptyQueue T C) [] absRel_empty
  exact ⟨lf, by simpa using hacc.symm⟩

/-- Witness for C3 on a concrete interleaved workload of capacity 3. -/
theorem queue_fifo_order_witness :
    (runOps (LockFreeRingQueue.emptyQueue Nat 3)
        [QueueOp.push 1, QueueOp.push 2, QueueOp.pop, QueueOp.push 3,
         QueueOp.pop, QueueOp.pop, QueueOp.pop]).2.2 <+:
      (runOps (LockFreeRingQueue.emptyQueue Nat 3)
        [QueueOp.push 1, QueueOp.push 2, QueueOp.pop, QueueOp.push 3,
         QueueOp.pop, QueueOp.pop, QueueOp.pop]).2.1 :=
  queue_fifo_order
    [QueueOp.push 1, QueueOp.push 2, QueueOp.pop, QueueOp.push 3,
     QueueOp.pop, QueueOp.pop, QueueOp.pop]
